import Mathlib

/-!
The quantizing array codec of `src/osgPlugins/qtz/CArray.h`.

A shallow embedding of `CBaseArray` and of the member functions that are
defined in the header: `useQuantization`, `usePrediction`,
`parallelogramPrediction`, `quantizationPrecision`, `quantizeArray` and
`unquantizeArray`.

Modelling decisions.

* `osg::Vec2` / `osg::Vec3` are tuples of scalars, `Vec 2` / `Vec 3`.  The
  `float` scalars of the source are idealised as exact rationals: rounding of
  floating-point operations is outside this model.
* `int` is a 32-bit two's-complement integer: every `int` operation is
  followed by `wrap32`.
* `std::vector` and `std::deque` are lists, `std::set<size_t>` is a finite set
  of naturals, `size_t` counters are naturals.
* Dereferencing an iterator at or after `end()`, and indexing a deque out of
  range, have no defined behaviour: the functions that can do so return
  `Option`, with `none` for that case.
* `quantize` and `unquantize` are only declared in the header (their bodies
  are in `CArray.hxx`); `quantizeArray` and `unquantizeArray` take them as a
  parameter.  The properties of `quantize` and `unquantize` themselves are
  stated for the definitions `Qtz.quantize` and `Qtz.unquantize`, which follow
  section 4.2 of the specification.
-/

namespace Qtz

/-! ## Scalars, vectors and machine integers -/

/-- An `osg::VecN`: `n` scalar components. -/
abbrev Vec (n : Nat) := Fin n → ℚ

/-- Componentwise `operator+` of `osg::VecN`. -/
def Vec.add {n : Nat} (a b : Vec n) : Vec n := fun i => a i + b i

/-- Componentwise `operator-` of `osg::VecN`. -/
def Vec.sub {n : Nat} (a b : Vec n) : Vec n := fun i => a i - b i

/-- Multiplication by a scalar, `operator*(float)` of `osg::VecN`. -/
def Vec.scale {n : Nat} (a : Vec n) (s : ℚ) : Vec n := fun i => a i * s

/-- Reduction of an integer to the range of a 32-bit two's-complement `int`. -/
def wrap32 (z : Int) : Int := (z + 2 ^ 31) % 2 ^ 32 - 2 ^ 31

/-- The `int` subtraction `a - b`. -/
def sub32 (a b : Int) : Int := wrap32 (a - b)

/-- The `int` shift `a << n`.  The shift count is taken modulo 32, which is
what the x86 and AArch64 shifters do with a count outside `0..31` (C++ gives
such a shift no meaning); the result wraps to 32 bits. -/
def shl32 (a n : Int) : Int := wrap32 (a * 2 ^ (n % 32).toNat)

/-! ## `CArray::Mode` and `CBaseArray` -/

/-- The enumerator `CArray::quantization = 1 << 0`. -/
def CArray.quantization : Int := shl32 1 0

/-- The enumerator `CArray::prediction = 1 << 1`. -/
def CArray.prediction : Int := shl32 1 1

/-- The data members of `CBaseArray<C>`, for an element type of `n` components. -/
structure CBaseArray (n : Nat) where
  /-- The array held by the codec (`osg::ref_ptr<osg::Array> _data`). -/
  _data : List (Vec n)
  /-- Bounding box corner 0. -/
  _bbl : Vec n
  /-- Bounding box corner 7. -/
  _ufr : Vec n
  /-- The mode bit set (`int _mode`). -/
  _mode : Int
  /-- The quantization precision in bytes (`int _bytes`). -/
  _bytes : Int

/-- `useQuantization()`: `static_cast<bool>(_mode & quantization)`. -/
def useQuantization {n : Nat} (self : CBaseArray n) : Bool :=
  Int.land self._mode CArray.quantization != 0

/-- `usePrediction()`: `static_cast<bool>(_mode & prediction)`. -/
def usePrediction {n : Nat} (self : CBaseArray n) : Bool :=
  Int.land self._mode CArray.prediction != 0

/-- `parallelogramPrediction(window)`: `window[0] + window[2] - window[1]`.
The member function reads no data member.  Indexing the deque out of range
is `none`. -/
def parallelogramPrediction {n : Nat} (window : List (Vec n)) : Option (Vec n) :=
  match window[0]?, window[2]?, window[1]? with
  | some w0, some w2, some w1 => some (Vec.sub (Vec.add w0 w2) w1)
  | _, _, _ => none

/-- `quantizationPrecision(bbl, ufr)`:
`bits = (_bytes << 3) - 1`, `precision = 1. / ((1 << bits) - 1)`, and the
result is `(ufr - bbl) * precision`. -/
def quantizationPrecision {n m : Nat} (self : CBaseArray n) (bbl ufr : Vec m) : Vec m :=
  let bits : Int := sub32 (shl32 self._bytes 3) 1
  let precision : ℚ := 1 / ((sub32 (shl32 1 bits) 1 : Int) : ℚ)
  Vec.scale (Vec.sub ufr bbl) precision

/-! ## `quantizeArray` -/

/-- The inner loop of lines 86-88 and 126-128: `it_vtx` runs from
`it_strip->begin()` to `it_strip->begin() + 3` and `*it_vtx` is inserted in
the set.  `j` is the offset of `it_vtx` from `begin()`, `todo` the number of
iterations left.  Reading at or after the end of the strip is `none`. -/
def insertStripStart (strip : List Nat) : Nat → Nat → Finset Nat → Option (Finset Nat)
  | 0, _, strips_vertices => some strips_vertices
  | todo + 1, j, strips_vertices =>
    match strip[j]? with
    | none => none
    | some vtx => insertStripStart strip todo (j + 1) (insert vtx strips_vertices)

/-- The loop over `strips` of lines 83-89 of `quantizeArray`, which fills
`strips_vertices`. -/
def quantizeArray_strips_vertices : List (List Nat) → Finset Nat → Option (Finset Nat)
  | [], strips_vertices => some strips_vertices
  | strip :: rest, strips_vertices =>
    match insertStripStart strip 3 0 strips_vertices with
    | none => none
    | some s => quantizeArray_strips_vertices rest s

/-- The loop over `buffer` of lines 92-101 of `quantizeArray`: the element at
index `ii` is pushed quantized when `ii` is not found in `strips_vertices`,
and as it is otherwise. -/
def quantizeArray_selective {m : Nat} (quantize : Vec m → Vec m)
    (strips_vertices : Finset Nat) : List (Vec m) → Nat → List (Vec m) → List (Vec m)
  | [], _, result => result
  | x :: it, ii, result =>
    if ii ∉ strips_vertices then
      quantizeArray_selective quantize strips_vertices it (ii + 1) (result ++ [quantize x])
    else
      quantizeArray_selective quantize strips_vertices it (ii + 1) (result ++ [x])

/-- The loop over `buffer` of lines 105-106 of `quantizeArray`: every element
is pushed quantized. -/
def quantizeArray_every {m : Nat} (quantize : Vec m → Vec m) :
    List (Vec m) → List (Vec m) → List (Vec m)
  | [], result => result
  | x :: it, result => quantizeArray_every quantize it (result ++ [quantize x])

/-- `quantizeArray(result, buffer, bbl, ufr, strips)`; the value is the
content of `*result` after the call. -/
def quantizeArray {n m : Nat} (self : CBaseArray n) (quantize : Vec m → Vec m → Vec m → Vec m)
    (result buffer : List (Vec m)) (bbl ufr : Vec m) (strips : List (List Nat)) :
    Option (List (Vec m)) :=
  let h := quantizationPrecision self bbl ufr
  if usePrediction self && !strips.isEmpty then
    match quantizeArray_strips_vertices strips ∅ with
    | none => none
    | some strips_vertices =>
      some (quantizeArray_selective (fun x => quantize x h bbl) strips_vertices buffer 0 result)
  else
    some (quantizeArray_every (fun x => quantize x h bbl) buffer result)

/-! ## `unquantizeArray` -/

/-- The loop over `strips` of lines 123-129 of `unquantizeArray`, which fills
`strips_vertices`. -/
def unquantizeArray_strips_vertices : List (List Nat) → Finset Nat → Option (Finset Nat)
  | [], strips_vertices => some strips_vertices
  | strip :: rest, strips_vertices =>
    match insertStripStart strip 3 0 strips_vertices with
    | none => none
    | some s => unquantizeArray_strips_vertices rest s

/-- The loop over `buffer` of lines 132-140 of `unquantizeArray`. -/
def unquantizeArray_selective {m : Nat} (unquantize : Vec m → Vec m)
    (strips_vertices : Finset Nat) : List (Vec m) → Nat → List (Vec m) → List (Vec m)
  | [], _, result => result
  | x :: it, ii, result =>
    if ii ∉ strips_vertices then
      unquantizeArray_selective unquantize strips_vertices it (ii + 1) (result ++ [unquantize x])
    else
      unquantizeArray_selective unquantize strips_vertices it (ii + 1) (result ++ [x])

/-- The loop over `buffer` of lines 145-146 of `unquantizeArray`. -/
def unquantizeArray_every {m : Nat} (unquantize : Vec m → Vec m) :
    List (Vec m) → List (Vec m) → List (Vec m)
  | [], result => result
  | x :: it, result => unquantizeArray_every unquantize it (result ++ [unquantize x])

/-- `unquantizeArray(result, buffer, bbl, ufr, strips)`; the value is the
content of `*result` after the call. -/
def unquantizeArray {n m : Nat} (self : CBaseArray n)
    (unquantize : Vec m → Vec m → Vec m → Vec m)
    (result buffer : List (Vec m)) (bbl ufr : Vec m) (strips : List (List Nat)) :
    Option (List (Vec m)) :=
  let h := quantizationPrecision self bbl ufr
  if usePrediction self && !strips.isEmpty then
    match unquantizeArray_strips_vertices strips ∅ with
    | none => none
    | some strips_vertices =>
      some (unquantizeArray_selective (fun x => unquantize x h bbl) strips_vertices buffer 0 result)
  else
    some (unquantizeArray_every (fun x => unquantize x h bbl) buffer result)

/-! ## Specification-level notions -/

/-- Index `k` is the 1st, 2nd or 3rd index of some strip. -/
def IsAnchor (strips : List (List Nat)) (k : Nat) : Prop :=
  ∃ strip ∈ strips, ∃ p, p < 3 ∧ strip[p]? = some k

instance (strips : List (List Nat)) (k : Nat) : Decidable (IsAnchor strips k) := by
  unfold IsAnchor; infer_instance

/-- The first three indices of every strip, as a set. -/
def anchorFinset : List (List Nat) → Finset Nat
  | [] => ∅
  | strip :: rest => (strip.take 3).toFinset ∪ anchorFinset rest

/-- What the selective loops append. -/
def emitted {m : Nat} (f : Vec m → Vec m) (sv : Finset Nat) : List (Vec m) → Nat → List (Vec m)
  | [], _ => []
  | x :: it, ii => (if ii ∈ sv then x else f x) :: emitted f sv it (ii + 1)

/-! ## Concrete data used by the examples -/

/-- The four vertices of scenario A: `(0,0,0), (1,0,0), (1,1,0), (0,1,0)`. -/
def squareVertices : List (Vec 3) := [![0, 0, 0], ![1, 0, 0], ![1, 1, 0], ![0, 1, 0]]

/-- A codec for 3-component arrays with extent `(0,0,0)..(1,1,0)`. -/
def squareCodec (mode bytes : Int) : CBaseArray 3 :=
  { _data := [], _bbl := ![0, 0, 0], _ufr := ![1, 1, 0], _mode := mode, _bytes := bytes }

/-- A stand-in for `quantize` in the examples: the offset from `bbl`, doubled
where the step is not zero. -/
def sampleQuantize : Vec 3 → Vec 3 → Vec 3 → Vec 3 :=
  fun v h bbl i => if h i = 0 then 0 else 2 * (v i - bbl i)

/-- A stand-in for `unquantize` in the examples. -/
def sampleUnquantize : Vec 3 → Vec 3 → Vec 3 → Vec 3 :=
  fun c h bbl i => if h i = 0 then bbl i else c i / 2 + bbl i

/-! ## Instrumentation of the anchor loop -/

/-- Modelled from the spec: the rounding of `quantize`, round to nearest with
ties away from zero (section 4.2).  The body of `quantize` is in `CArray.hxx`,
which is not among the source files. -/
def roundHalfAway (x : ℚ) : Int := if 0 ≤ x then ⌊x + 1 / 2⌋ else ⌈x - 1 / 2⌉

/-- Modelled from the spec: `quantize(v, h, bbl)`, declared in the header and
defined in `CArray.hxx`, which is not among the source files.  Section 4.2:
`code[i] = round((v[i] - bbl[i]) / h[i])` when `h[i] != 0`, else `0`. -/
def quantize {m : Nat} (v h bbl : Vec m) : Vec m :=
  fun i => if h i = 0 then 0 else (roundHalfAway ((v i - bbl i) / h i) : ℚ)

/-- Modelled from the spec: `unquantize(code, h, bbl)`, declared in the header
and defined in `CArray.hxx`, which is not among the source files.  Section
4.2: `v[i] = code[i] * h[i] + bbl[i]`. -/
def unquantize {m : Nat} (code h bbl : Vec m) : Vec m :=
  fun i => code i * h i + bbl i

end Qtz

/-! # The option parser of `src/osgPlugins/meta/ReaderWriterMeta.cpp`

`std::string` is a list of characters, the `options` pointer an `Option` (the
null pointer is `none`) that holds the option string returned by
`getOptionString()`.  The `osg::notify` output is not modelled. -/

namespace ReaderWriterMeta

/-- The struct `ReaderWriterMeta::OptionsStruct`. -/
structure OptionsStruct where
  /-- The flag set by the option `useRelativePath`. -/
  useRelativePath : Bool
  /-- The path set by the option `output`. -/
  output : List Char
  deriving DecidableEq

/-- The constructor `OptionsStruct()`: `useRelativePath = false` and
`output = "meta.json"`. -/
def OptionsStruct.new : OptionsStruct :=
  { useRelativePath := false, output := "meta.json".toList }

/-- The whitespace that delimits the extraction `iss >> opt` (`std::isspace`
in the classic locale): space, `\t`, `\n`, `\v`, `\f`, `\r`. -/
def isspace (c : Char) : Bool :=
  c == ' ' || c == '\t' || c == '\n' || c == Char.ofNat 11 || c == Char.ofNat 12 || c == '\r'

/-- The successive values of `opt` in `while (iss >> opt)`: every extraction
skips the leading whitespace and reads the characters up to the next
whitespace or the end of the stream; the loop ends with the extraction that
finds no character.  `cur` is the part of the word read so far. -/
def extractions (cur : List Char) : List Char → List (List Char)
  | [] => if cur.isEmpty then [] else [cur]
  | c :: rest =>
    if isspace c then
      if cur.isEmpty then extractions [] rest else cur :: extractions [] rest
    else extractions (cur ++ [c]) rest

/-- `opt.find("=")`: the index of the first `=`, or `npos` (`none`). -/
def find_equals : List Char → Option Nat
  | [] => none
  | c :: rest => if c = '=' then some 0 else (find_equals rest).map (· + 1)

/-- The body of the loop of `parseOptions`: `opt` is split at its first `=`
into `pre_equals` and `post_equals` (`pre_equals` is all of `opt` when it has
no `=`), and `localOptions` is updated for the keys `useRelativePath` and
`output`. -/
def parseOptions_step (localOptions : OptionsStruct) (opt : List Char) : OptionsStruct :=
  let split : List Char × List Char :=
    match find_equals opt with
    | some found => (opt.take found, opt.drop (found + 1))
    | none => (opt, [])
  if split.1 = "useRelativePath".toList then
    { localOptions with useRelativePath := true }
  else if split.1 = "output".toList then
    { localOptions with output := split.2 }
  else localOptions

/-- `parseOptions(options)`. -/
def parseOptions (options : Option (List Char)) : OptionsStruct :=
  match options with
  | none => OptionsStruct.new
  | some optionString =>
    (extractions [] optionString).foldl parseOptions_step OptionsStruct.new

/-! ## Specification-level notions -/

/-- The whitespace-separated tokens of a string: the non-empty pieces between
whitespace characters. -/
def tokens (s : List Char) : List (List Char) :=
  (s.splitOnP isspace).filter (fun t => !t.isEmpty)

/-- The text of a token before its first `=` (all of it when it has none). -/
def key (t : List Char) : List Char := t.takeWhile (fun c => c != '=')

/-- The text of a token after its first `=` (empty when it has none). -/
def value (t : List Char) : List Char := (t.dropWhile (fun c => c != '=')).drop 1

/-- The output path the option string asks for: the value of the last token
whose key is `output`, and `meta.json` when there is none. -/
def requestedOutput (s : List Char) : List Char :=
  match ((tokens s).filter (fun t => key t = "output".toList)).getLast? with
  | some t => value t
  | none => "meta.json".toList

end ReaderWriterMeta

/-! # `readNode` and the metadata extractor of `ReaderWriterMeta.cpp`

The functions of osgDB that `readNode` and `createTextureFileName` call are
not among the source files: they are parameters.  The scene graph and the disk
are seen through the effects `readNode` has on them. -/

namespace ReaderWriterMeta

/-- The values of `osgDB::ReaderWriter::ReadResult` that `readNode` returns:
the status `FILE_NOT_HANDLED`, or the node read. -/
inductive ReadResult (Node : Type) where
  /-- The status `ReadResult::FILE_NOT_HANDLED`. -/
  | FILE_NOT_HANDLED : ReadResult Node
  /-- The result built from `node.release()`. -/
  | node (n : Node) : ReadResult Node

/-- What `readNode` does with the metadata extractor. -/
inductive Effect (Node : Type) where
  /-- The traversal `node->accept(visitor)`, the visitor being built from
  `modelDir` and `useRelativePath`. -/
  | accept (node : Node) (modelDir : List Char) (useRelativePath : Bool) : Effect Node
  /-- The write of the metadata file, `visitor.dumpMeta(output)`. -/
  | dumpMeta (output : List Char) : Effect Node

/-- The functions of osgDB and of the base class that `readNode` calls. -/
structure Library (Node : Type) where
  /-- The function `osgDB::getLowerCaseFileExtension`. -/
  getLowerCaseFileExtension : List Char → List Char
  /-- The member function `acceptsExtension` of the base class. -/
  acceptsExtension : List Char → Bool
  /-- The function `osgDB::getNameLessExtension`. -/
  getNameLessExtension : List Char → List Char
  /-- The function `osgDB::readNodeFile`; `none` is an invalid node pointer. -/
  readNodeFile : List Char → Option (List Char) → Option Node
  /-- The function `osgDB::findDataFile`. -/
  findDataFile : List Char → List Char
  /-- The function `osgDB::fileExists`. -/
  fileExists : List Char → Bool
  /-- The function `osgDB::getFilePath`. -/
  getFilePath : List Char → List Char

/-- The loop `do { path = findDataFile(name); name = getNameLessExtension(name); }
while (!fileExists(path))` of `readNode`, run for at most `fuel` iterations;
the value is the final `path`. -/
def findPhysicalFile {Node : Type} (lib : Library Node) : Nat → List Char → Option (List Char)
  | 0, _ => none
  | fuel + 1, name =>
    let path := lib.findDataFile name
    if !lib.fileExists path then findPhysicalFile lib fuel (lib.getNameLessExtension name)
    else some path

/-- `readNode(fileName, options)`: the value returned and the effects, in
order.  `fuel` bounds the iterations of the loop that looks for the physical
file. -/
def readNode {Node : Type} (lib : Library Node) (fuel : Nat) (fileName : List Char)
    (options : Option (List Char)) : Option (ReadResult Node × List (Effect Node)) :=
  let ext := lib.getLowerCaseFileExtension fileName
  if !lib.acceptsExtension ext then some (ReadResult.FILE_NOT_HANDLED, [])
  else
    let subLocation := lib.getNameLessExtension fileName
    if subLocation.isEmpty then some (ReadResult.FILE_NOT_HANDLED, [])
    else
      let _options := parseOptions options
      match lib.readNodeFile subLocation options with
      | none => some (ReadResult.FILE_NOT_HANDLED, [])
      | some node =>
        match findPhysicalFile lib fuel fileName with
        | none => none
        | some path =>
          let modelDir := lib.getFilePath path
          some (ReadResult.node node,
            [Effect.accept node modelDir _options.useRelativePath,
              Effect.dumpMeta _options.output])

/-- A library for the examples: the extension is the text after the last dot,
only `meta` is accepted, and no file can be read. -/
def sampleLibrary : Library Nat :=
  { getLowerCaseFileExtension := fun s => (s.reverse.takeWhile (fun c => c != '.')).reverse
    acceptsExtension := fun ext => ext == "meta".toList
    getNameLessExtension := fun s => (s.reverse.dropWhile (fun c => c != '.')).drop 1 |>.reverse
    readNodeFile := fun _ _ => none
    findDataFile := fun s => s
    fileExists := fun _ => true
    getFilePath := fun _ => [] }

end ReaderWriterMeta

/-- The data members of the class `MetaDataExtractor`. -/
structure MetaDataExtractor where
  /-- The directory of the model. -/
  _modelDir : List Char
  /-- Whether image paths are made relative to the model. -/
  _useRelativePath : Bool
  /-- The counter of textures without a file name (`int _orphanTextureId`). -/
  _orphanTextureId : Int
  /-- The set of texture paths. -/
  _textures : Finset (List Char)
  /-- The source tool. -/
  _source : List Char

namespace MetaDataExtractor

/-- The constructor `MetaDataExtractor(modelDir, useRelativePath)`: the
counter starts at 0. -/
def new (modelDir : List Char) (useRelativePath : Bool) : MetaDataExtractor :=
  { _modelDir := modelDir, _useRelativePath := useRelativePath, _orphanTextureId := 0,
    _textures := ∅, _source := [] }

/-- The character of a decimal digit. -/
def digitChar (d : Nat) : Char := Char.ofNat (48 + d)

/-- The decimal digits of a natural number, most significant first, `0` for
zero. -/
def decimalDigits (n : Nat) : List Char :=
  if n = 0 then ['0'] else (Nat.digits 10 n).reverse.map digitChar

/-- The text that `name << _orphanTextureId` appends for an `int`: the decimal
digits, after a `-` for a negative value. -/
def showInt (z : Int) : List Char :=
  if z < 0 then '-' :: decimalDigits z.natAbs else decimalDigits z.natAbs

/-- `createTextureFileName()`: the name returned and the extractor after the
call.  `concatPaths` is `osgDB::concatPaths`, which is not among the source
files. -/
def createTextureFileName (concatPaths : List Char → List Char → List Char)
    (self : MetaDataExtractor) : List Char × MetaDataExtractor :=
  let name := "skfb_texture_extract_".toList ++ showInt self._orphanTextureId ++ ".jpg".toList
  (concatPaths self._modelDir name,
    { self with _orphanTextureId := Qtz.wrap32 (self._orphanTextureId + 1) })

/-- The extractor after `k` calls of `createTextureFileName`. -/
def calls (concatPaths : List Char → List Char → List Char) :
    Nat → MetaDataExtractor → MetaDataExtractor
  | 0, self => self
  | k + 1, self => calls concatPaths k (createTextureFileName concatPaths self).2

/-- The name returned by the `n`-th call (`n = 0, 1, 2, ...`) of
`createTextureFileName` on an extractor. -/
def nthName (concatPaths : List Char → List Char → List Char) (n : Nat)
    (self : MetaDataExtractor) : List Char :=
  (createTextureFileName concatPaths (calls concatPaths n self)).1

/-- A path join for the examples: the directory, a slash, the name. -/
def sampleConcatPaths (left right : List Char) : List Char := left ++ '/' :: right

end MetaDataExtractor

namespace Qtz

/-! ## A call as a state change -/

theorem mem_take_three (strip : List Nat) (k : Nat) :
    k ∈ strip.take 3 ↔ ∃ p, p < 3 ∧ strip[p]? = some k := by
  rw [List.mem_iff_getElem?]
  constructor
  · rintro ⟨p, hp⟩
    rw [List.getElem?_take] at hp
    by_cases h : p < 3
    · rw [if_pos h] at hp; exact ⟨p, h, hp⟩
    · rw [if_neg h] at hp; cases hp
  · rintro ⟨p, h, hp⟩
    exact ⟨p, by rw [List.getElem?_take, if_pos h]; exact hp⟩

theorem mem_anchorFinset (strips : List (List Nat)) (k : Nat) :
    k ∈ anchorFinset strips ↔ IsAnchor strips k := by
  induction strips with
  | nil => simp [anchorFinset, IsAnchor]
  | cons s r ih =>
    simp only [anchorFinset, Finset.mem_union, List.mem_toFinset, ih, mem_take_three, IsAnchor,
      List.mem_cons, exists_eq_or_imp]

theorem insertStripStart_three (strip : List Nat) (s : Finset Nat) :
    insertStripStart strip 3 0 s =
      if 3 ≤ strip.length then some (s ∪ (strip.take 3).toFinset) else none := by
  rcases strip with _ | ⟨a, _ | ⟨b, _ | ⟨c, t⟩⟩⟩ <;> simp [insertStripStart]
  ext k
  simp only [Finset.mem_insert, Finset.mem_union, Finset.mem_singleton]
  tauto

theorem quantizeArray_strips_vertices_eq (strips : List (List Nat)) :
    ∀ s : Finset Nat, quantizeArray_strips_vertices strips s =
      if ∀ strip ∈ strips, 3 ≤ strip.length then some (s ∪ anchorFinset strips) else none := by
  induction strips with
  | nil => intro s; simp [quantizeArray_strips_vertices, anchorFinset]
  | cons a r ih =>
    intro s
    simp only [quantizeArray_strips_vertices, insertStripStart_three, List.mem_cons,
      forall_eq_or_imp]
    by_cases ha : 3 ≤ a.length
    · simp only [ha, if_true, ih, true_and, anchorFinset, Finset.union_assoc]
    · simp [ha]

theorem unquantizeArray_strips_vertices_eq (strips : List (List Nat)) :
    ∀ s : Finset Nat, unquantizeArray_strips_vertices strips s =
      quantizeArray_strips_vertices strips s := by
  induction strips with
  | nil => intro s; rfl
  | cons a r ih =>
    intro s
    simp only [quantizeArray_strips_vertices, unquantizeArray_strips_vertices]
    cases insertStripStart a 3 0 s with
    | none => rfl
    | some t => exact ih t

theorem quantizeArray_selective_eq {m : Nat} (f : Vec m → Vec m) (sv : Finset Nat)
    (buffer : List (Vec m)) : ∀ (ii : Nat) (result : List (Vec m)),
    quantizeArray_selective f sv buffer ii result = result ++ emitted f sv buffer ii := by
  induction buffer with
  | nil => intro ii result; simp [quantizeArray_selective, emitted]
  | cons x it ih =>
    intro ii result
    by_cases h : ii ∈ sv <;> simp [quantizeArray_selective, emitted, h, ih]

theorem unquantizeArray_selective_eq {m : Nat} (f : Vec m → Vec m) (sv : Finset Nat)
    (buffer : List (Vec m)) : ∀ (ii : Nat) (result : List (Vec m)),
    unquantizeArray_selective f sv buffer ii result = result ++ emitted f sv buffer ii := by
  induction buffer with
  | nil => intro ii result; simp [unquantizeArray_selective, emitted]
  | cons x it ih =>
    intro ii result
    by_cases h : ii ∈ sv <;> simp [unquantizeArray_selective, emitted, h, ih]

theorem quantizeArray_every_eq {m : Nat} (f : Vec m → Vec m) (buffer : List (Vec m)) :
    ∀ result : List (Vec m), quantizeArray_every f buffer result = result ++ buffer.map f := by
  induction buffer with
  | nil => intro result; simp [quantizeArray_every]
  | cons x it ih => intro result; simp [quantizeArray_every, ih]

theorem unquantizeArray_every_eq {m : Nat} (f : Vec m → Vec m) (buffer : List (Vec m)) :
    ∀ result : List (Vec m), unquantizeArray_every f buffer result = result ++ buffer.map f := by
  induction buffer with
  | nil => intro result; simp [unquantizeArray_every]
  | cons x it ih => intro result; simp [unquantizeArray_every, ih]

theorem emitted_length {m : Nat} (f : Vec m → Vec m) (sv : Finset Nat) (buffer : List (Vec m)) :
    ∀ ii : Nat, (emitted f sv buffer ii).length = buffer.length := by
  induction buffer with
  | nil => intro ii; rfl
  | cons x it ih => intro ii; simp [emitted, ih]

theorem emitted_getElem? {m : Nat} (f : Vec m → Vec m) (sv : Finset Nat) (buffer : List (Vec m)) :
    ∀ ii k : Nat, (emitted f sv buffer ii)[k]? =
      (buffer[k]?).map (fun x => if ii + k ∈ sv then x else f x) := by
  induction buffer with
  | nil => intro ii k; simp [emitted]
  | cons x it ih =>
    intro ii k
    cases k with
    | zero => simp [emitted]
    | succ k => simp [emitted, ih, Nat.add_assoc, Nat.add_comm 1 k]


theorem quantizeArray_eq {n m : Nat} (self : CBaseArray n)
    (quantize : Vec m → Vec m → Vec m → Vec m) (result buffer : List (Vec m))
    (bbl ufr : Vec m) (strips : List (List Nat)) :
    quantizeArray self quantize result buffer bbl ufr strips =
      if usePrediction self = true ∧ strips ≠ [] then
        if ∀ strip ∈ strips, 3 ≤ strip.length then
          some (result ++ emitted (fun x => quantize x (quantizationPrecision self bbl ufr) bbl)
            (anchorFinset strips) buffer 0)
        else none
      else
        some (result ++
          buffer.map (fun x => quantize x (quantizationPrecision self bbl ufr) bbl)) := by
  unfold quantizeArray
  by_cases hp : usePrediction self = true
  · cases strips with
    | nil => simp [hp, quantizeArray_every_eq]
    | cons a r =>
      simp only [hp, List.isEmpty_cons, Bool.not_false, Bool.and_self, if_true, ne_eq,
        not_false_eq_true, and_self, quantizeArray_strips_vertices_eq, reduceCtorEq]
      by_cases hl : ∀ strip ∈ a :: r, 3 ≤ strip.length
      · simp only [Finset.empty_union, quantizeArray_selective_eq]
        rw [if_pos hl, if_pos hl]
      · simp only [hl, if_false]
  · simp [hp, quantizeArray_every_eq]

theorem unquantizeArray_eq {n m : Nat} (self : CBaseArray n)
    (unquantize : Vec m → Vec m → Vec m → Vec m) (result buffer : List (Vec m))
    (bbl ufr : Vec m) (strips : List (List Nat)) :
    unquantizeArray self unquantize result buffer bbl ufr strips =
      if usePrediction self = true ∧ strips ≠ [] then
        if ∀ strip ∈ strips, 3 ≤ strip.length then
          some (result ++ emitted (fun x => unquantize x (quantizationPrecision self bbl ufr) bbl)
            (anchorFinset strips) buffer 0)
        else none
      else
        some (result ++
          buffer.map (fun x => unquantize x (quantizationPrecision self bbl ufr) bbl)) := by
  unfold unquantizeArray
  by_cases hp : usePrediction self = true
  · cases strips with
    | nil => simp [hp, unquantizeArray_every_eq]
    | cons a r =>
      simp only [hp, List.isEmpty_cons, Bool.not_false, Bool.and_self, if_true, ne_eq,
        not_false_eq_true, and_self, unquantizeArray_strips_vertices_eq,
        quantizeArray_strips_vertices_eq, reduceCtorEq]
      by_cases hl : ∀ strip ∈ a :: r, 3 ≤ strip.length
      · simp only [Finset.empty_union, unquantizeArray_selective_eq]
        rw [if_pos hl, if_pos hl]
      · simp only [hl, if_false]
  · simp [hp, unquantizeArray_every_eq]


theorem wrap32_denominator (w : Int) (h1 : 1 ≤ w) (h4 : w ≤ 4) :
    sub32 (shl32 1 (sub32 (shl32 w 3) 1)) 1 = 2 ^ (8 * w.toNat - 1) - 1 := by
  interval_cases w <;> decide

theorem isAnchor_nil (k : Nat) : ¬ IsAnchor [] k := by
  simp [IsAnchor]

/-! ## Strip lists with the same anchors -/

/-- C2: whatever the width, a component `i` with `ufr[i] == bbl[i]` has the
precision step `h[i] = 0`. -/
theorem quantizationPrecision_degenerate {n m : Nat} (self : CBaseArray n) (bbl ufr : Vec m)
    (i : Fin m) (h : ufr i = bbl i) : quantizationPrecision self bbl ufr i = 0 := by
  simp [quantizationPrecision, Vec.scale, Vec.sub, h]

/-- Witness of C2: the z component of the extent `(0,0,0)..(1,1,0)`. -/
theorem quantizationPrecision_degenerate_witness :
    quantizationPrecision (squareCodec 1 2) ![0, 0, 0] ![1, 1, 0] 2 = 0 :=
  quantizationPrecision_degenerate (squareCodec 1 2) ![0, 0, 0] ![1, 1, 0] 2 rfl

/-- C3: when the Prediction flag is not set, `quantizeArray` appends
`quantize(buffer[k], h, bbl)` for every index `k` of the buffer, in order, and
the strips have no influence on the result. -/
theorem quantizeArray_without_prediction {n m : Nat} (self : CBaseArray n)
    (quantize : Vec m → Vec m → Vec m → Vec m) (result buffer : List (Vec m))
    (bbl ufr : Vec m) (strips : List (List Nat)) (hp : usePrediction self = false) :
    quantizeArray self quantize result buffer bbl ufr strips =
      some (result ++
        buffer.map (fun x => quantize x (quantizationPrecision self bbl ufr) bbl)) ∧
    (∃ out, quantizeArray self quantize [] buffer bbl ufr strips = some out ∧
      out.length = buffer.length ∧ ∀ (k : Nat) (hk : k < buffer.length),
        out[k]? = some (quantize buffer[k] (quantizationPrecision self bbl ufr) bbl)) ∧
    ∀ strips2 : List (List Nat),
      quantizeArray self quantize result buffer bbl ufr strips2 =
        quantizeArray self quantize result buffer bbl ufr strips := by
  have key : ∀ (r : List (Vec m)) (s : List (List Nat)),
      quantizeArray self quantize r buffer bbl ufr s =
        some (r ++ buffer.map (fun x => quantize x (quantizationPrecision self bbl ufr) bbl)) := by
    intro r s
    rw [quantizeArray_eq, if_neg]
    simp [hp]
  refine ⟨key _ _, ⟨_, key _ _, by simp, fun k hk => ?_⟩, fun s2 => by rw [key, key]⟩
  simp [List.getElem?_map, List.getElem?_eq_getElem hk]

/-- Witness of C3, scenario A: the square, one strip `[0,1,2,3]`, width 2 and
mode Quantization only. -/
theorem quantizeArray_without_prediction_witness :
    quantizeArray (squareCodec 1 2) sampleQuantize [] squareVertices ![0, 0, 0] ![1, 1, 0]
        [[0, 1, 2, 3]] =
      some ([] ++ squareVertices.map (fun x =>
        sampleQuantize x (quantizationPrecision (squareCodec 1 2) ![0, 0, 0] ![1, 1, 0])
          ![0, 0, 0])) :=
  (quantizeArray_without_prediction (squareCodec 1 2) sampleQuantize [] squareVertices
    ![0, 0, 0] ![1, 1, 0] [[0, 1, 2, 3]] (by decide)).1


/-- C4, as stated, fails: with the Prediction flag set and the single strip
`[0, 1]`, the loop that fills the anchor set reads the strip at offset 2, after
its end, and `quantizeArray` emits no defined output, so it does not emit the
elements the claim lists. -/
theorem quantizeArray_short_strip_not_emitted :
    usePrediction (squareCodec 3 2) = true ∧ [[0, 1]] ≠ ([] : List (List Nat)) ∧
    ¬ ∃ out, quantizeArray (squareCodec 3 2) sampleQuantize [] squareVertices
        ![0, 0, 0] ![1, 1, 0] [[0, 1]] = some out ∧
      ∀ (k : Nat) (hk : k < squareVertices.length),
        out[k]? = some (if IsAnchor [[0, 1]] k then squareVertices[k]
          else sampleQuantize squareVertices[k]
            (quantizationPrecision (squareCodec 3 2) ![0, 0, 0] ![1, 1, 0]) ![0, 0, 0]) := by
  refine ⟨by decide, by decide, ?_⟩
  rintro ⟨out, hout, -⟩
  rw [quantizeArray_eq, if_pos ⟨by decide, by decide⟩, if_neg (by decide)] at hout
  cases hout

/-- C4, amended: when the Prediction flag is set, the strip list is non-empty
and every strip has at least three indices, `quantizeArray` appends one element
for every index `k` of the buffer: `buffer[k]` itself when `k` is among the
first three indices of some strip, and `quantize(buffer[k], h, bbl)` when it
is not. -/
theorem quantizeArray_with_prediction {n m : Nat} (self : CBaseArray n)
    (quantize : Vec m → Vec m → Vec m → Vec m) (result buffer : List (Vec m))
    (bbl ufr : Vec m) (strips : List (List Nat)) (hp : usePrediction self = true)
    (hne : strips ≠ []) (hlen : ∀ strip ∈ strips, 3 ≤ strip.length) :
    ∃ out, quantizeArray self quantize result buffer bbl ufr strips = some (result ++ out) ∧
      out.length = buffer.length ∧
      ∀ (k : Nat) (hk : k < buffer.length),
        out[k]? = some (if IsAnchor strips k then buffer[k]
          else quantize buffer[k] (quantizationPrecision self bbl ufr) bbl) := by
  refine ⟨emitted (fun x => quantize x (quantizationPrecision self bbl ufr) bbl)
    (anchorFinset strips) buffer 0, ?_, emitted_length _ _ buffer 0, fun k hk => ?_⟩
  · rw [quantizeArray_eq, if_pos ⟨hp, hne⟩, if_pos hlen]
  · rw [emitted_getElem?, List.getElem?_eq_getElem hk]
    by_cases ha : IsAnchor strips k <;> simp [mem_anchorFinset, ha]

/-- Witness of C4 (amended), scenario B: the square with the strip
`[0,1,2,3]` and mode Quantization|Prediction. -/
theorem quantizeArray_with_prediction_witness :
    ∃ out, quantizeArray (squareCodec 3 2) sampleQuantize [] squareVertices
        ![0, 0, 0] ![1, 1, 0] [[0, 1, 2, 3]] = some ([] ++ out) ∧
      out.length = squareVertices.length ∧
      ∀ (k : Nat) (hk : k < squareVertices.length),
        out[k]? = some (if IsAnchor [[0, 1, 2, 3]] k then squareVertices[k]
          else sampleQuantize squareVertices[k]
            (quantizationPrecision (squareCodec 3 2) ![0, 0, 0] ![1, 1, 0]) ![0, 0, 0]) :=
  quantizeArray_with_prediction (squareCodec 3 2) sampleQuantize [] squareVertices
    ![0, 0, 0] ![1, 1, 0] [[0, 1, 2, 3]] (by decide) (by decide) (by decide)

/-- C5, anchor fidelity: with the Prediction flag set and strips of at least
three indices each, `unquantizeArray` applied (same strips, same extent) to the
output of `quantizeArray` holds, at every anchor index, exactly the source
element, whatever `quantize`, `unquantize` and the width are. -/
theorem anchor_fidelity {n m : Nat} (self : CBaseArray n)
    (quantize unquantize : Vec m → Vec m → Vec m → Vec m) (buffer : List (Vec m))
    (bbl ufr : Vec m) (strips : List (List Nat)) (hp : usePrediction self = true)
    (hlen : ∀ strip ∈ strips, 3 ≤ strip.length) :
    ∃ enc dec, quantizeArray self quantize [] buffer bbl ufr strips = some enc ∧
      unquantizeArray self unquantize [] enc bbl ufr strips = some dec ∧
      dec.length = buffer.length ∧
      ∀ k : Nat, IsAnchor strips k → dec[k]? = buffer[k]? := by
  by_cases hne : strips = []
  · subst hne
    refine ⟨[] ++ buffer.map (fun x => quantize x (quantizationPrecision self bbl ufr) bbl),
      [] ++ ([] ++ buffer.map (fun x => quantize x (quantizationPrecision self bbl ufr) bbl)).map
        (fun x => unquantize x (quantizationPrecision self bbl ufr) bbl),
      ?_, ?_, ?_, fun k hk => absurd hk (isAnchor_nil k)⟩
    · rw [quantizeArray_eq, if_neg (by simp)]
    · rw [unquantizeArray_eq, if_neg (by simp)]
    · simp
  · refine ⟨[] ++ emitted (fun x => quantize x (quantizationPrecision self bbl ufr) bbl)
        (anchorFinset strips) buffer 0,
      [] ++ emitted (fun x => unquantize x (quantizationPrecision self bbl ufr) bbl)
        (anchorFinset strips) ([] ++ emitted (fun x => quantize x
          (quantizationPrecision self bbl ufr) bbl) (anchorFinset strips) buffer 0) 0,
      ?_, ?_, ?_, fun k hk => ?_⟩
    · rw [quantizeArray_eq, if_pos ⟨hp, hne⟩, if_pos hlen]
    · rw [unquantizeArray_eq, if_pos ⟨hp, hne⟩, if_pos hlen]
    · simp [emitted_length]
    · have hm : k ∈ anchorFinset strips := (mem_anchorFinset strips k).2 hk
      simp only [List.nil_append, emitted_getElem?, Nat.zero_add, hm, if_true, Option.map_map]
      cases buffer[k]? <;> rfl

/-- Witness of C5: the square with the strip `[0,1,2,3]`, whose anchors are
the indices 0, 1 and 2. -/
theorem anchor_fidelity_witness :
    ∃ enc dec, quantizeArray (squareCodec 3 2) sampleQuantize [] squareVertices
        ![0, 0, 0] ![1, 1, 0] [[0, 1, 2, 3]] = some enc ∧
      unquantizeArray (squareCodec 3 2) sampleUnquantize [] enc ![0, 0, 0] ![1, 1, 0]
        [[0, 1, 2, 3]] = some dec ∧
      dec.length = squareVertices.length ∧
      ∀ k : Nat, IsAnchor [[0, 1, 2, 3]] k → dec[k]? = squareVertices[k]? :=
  anchor_fidelity (squareCodec 3 2) sampleQuantize sampleUnquantize squareVertices
    ![0, 0, 0] ![1, 1, 0] [[0, 1, 2, 3]] (by decide) (by decide)

/-- C6: for strips of at least three indices each, the set `strips_vertices`
built by `quantizeArray` contains `j` exactly when `j` is the 1st, 2nd or 3rd
index of some strip; an index at position 4 or later of a strip is in the set
only if it is among the first three indices of some strip. -/
theorem strips_vertices_first_three (strips : List (List Nat))
    (hlen : ∀ strip ∈ strips, 3 ≤ strip.length) :
    ∃ A, quantizeArray_strips_vertices strips ∅ = some A ∧
      (∀ j : Nat, j ∈ A ↔ ∃ strip ∈ strips, ∃ p, p < 3 ∧ strip[p]? = some j) ∧
      ∀ strip ∈ strips, ∀ p j : Nat, 3 ≤ p → strip[p]? = some j → j ∈ A →
        ∃ other ∈ strips, ∃ q, q < 3 ∧ other[q]? = some j := by
  have hm : ∀ j : Nat, j ∈ anchorFinset strips ↔
      ∃ strip ∈ strips, ∃ p, p < 3 ∧ strip[p]? = some j := fun j => mem_anchorFinset strips j
  refine ⟨anchorFinset strips, ?_, hm, fun _ _ _ j _ _ hj => (hm j).1 hj⟩
  rw [quantizeArray_strips_vertices_eq, if_pos hlen, Finset.empty_union]

/-- Witness of C6: two overlapping strips; the set is `{0, 1, 2, 3}` and does
not contain 4, the fourth index of the second strip. -/
theorem strips_vertices_first_three_witness :
    ∃ A, quantizeArray_strips_vertices [[0, 1, 2, 3], [1, 2, 3, 4]] ∅ = some A ∧
      (∀ j : Nat, j ∈ A ↔
        ∃ strip ∈ [[0, 1, 2, 3], [1, 2, 3, 4]], ∃ p, p < 3 ∧ strip[p]? = some j) ∧
      ∀ strip ∈ [[0, 1, 2, 3], [1, 2, 3, 4]], ∀ p j : Nat, 3 ≤ p → strip[p]? = some j → j ∈ A →
        ∃ other ∈ [[0, 1, 2, 3], [1, 2, 3, 4]], ∃ q, q < 3 ∧ other[q]? = some j :=
  strips_vertices_first_three [[0, 1, 2, 3], [1, 2, 3, 4]] (by decide)


/-- C7: the anchor set is computed identically on both paths, from the strips
alone.  For every strip list the set built by `quantizeArray` is the set built
by `unquantizeArray`; an index is found in the one exactly when it is found in
the other; and whatever the codec (mode, width), the quantize and unquantize
functions, the buffer and the extent are, the set that decides which elements
`quantizeArray` and `unquantizeArray` push raw is that one function of the
strips. -/
theorem strips_vertices_same_on_both_paths (strips : List (List Nat)) :
    quantizeArray_strips_vertices strips ∅ = unquantizeArray_strips_vertices strips ∅ ∧
    (∀ A B : Finset Nat, quantizeArray_strips_vertices strips ∅ = some A →
      unquantizeArray_strips_vertices strips ∅ = some B → ∀ k : Nat, k ∉ B ↔ k ∉ A) ∧
    ∀ (n m : Nat) (self : CBaseArray n) (f : Vec m → Vec m → Vec m → Vec m)
      (result buffer : List (Vec m)) (bbl ufr : Vec m),
      quantizeArray self f result buffer bbl ufr strips =
        (if usePrediction self && !strips.isEmpty then
          (quantizeArray_strips_vertices strips ∅).map (fun A =>
            quantizeArray_selective (fun x => f x (quantizationPrecision self bbl ufr) bbl)
              A buffer 0 result)
        else some (quantizeArray_every
          (fun x => f x (quantizationPrecision self bbl ufr) bbl) buffer result)) ∧
      unquantizeArray self f result buffer bbl ufr strips =
        (if usePrediction self && !strips.isEmpty then
          (quantizeArray_strips_vertices strips ∅).map (fun A =>
            unquantizeArray_selective (fun x => f x (quantizationPrecision self bbl ufr) bbl)
              A buffer 0 result)
        else some (unquantizeArray_every
          (fun x => f x (quantizationPrecision self bbl ufr) bbl) buffer result)) := by
  have heq := (unquantizeArray_strips_vertices_eq strips ∅).symm
  refine ⟨heq, ?_, ?_⟩
  · intro A B hA hB k
    rw [← heq, hA] at hB
    cases hB
    exact Iff.rfl
  · intro n m self f result buffer bbl ufr
    constructor
    · unfold quantizeArray
      cases quantizeArray_strips_vertices strips ∅ <;> rfl
    · unfold unquantizeArray
      rw [← heq]
      cases quantizeArray_strips_vertices strips ∅ <;> rfl

/-- C10: on a window that starts with `w0, w1, w2`, `parallelogramPrediction`
returns the vector with components `w0[i] + w2[i] - w1[i]`; the entries after
the third are not read. -/
theorem parallelogramPrediction_window {n : Nat} (w0 w1 w2 : Vec n) (rest : List (Vec n)) :
    parallelogramPrediction (w0 :: w1 :: w2 :: rest) = some (fun i => w0 i + w2 i - w1 i) ∧
    parallelogramPrediction (w0 :: w1 :: w2 :: rest) = parallelogramPrediction [w0, w1, w2] := by
  constructor
  · simp only [parallelogramPrediction, List.getElem?_cons_zero, List.getElem?_cons_succ]
    rfl
  · simp [parallelogramPrediction]



theorem nat_and_two_pow (a j : Nat) : a &&& 2 ^ j = if a.testBit j then 2 ^ j else 0 := by
  apply Nat.eq_of_testBit_eq
  intro i
  rw [Nat.testBit_and, Nat.testBit_two_pow]
  by_cases h : a.testBit j
  · rw [if_pos h, Nat.testBit_two_pow]
    by_cases hji : j = i
    · subst hji; simp [h]
    · simp [hji]
  · rw [if_neg h]
    by_cases hji : j = i
    · subst hji; simp [h]
    · simp [hji]

theorem nat_ldiff_two_pow (a j : Nat) :
    Nat.ldiff (2 ^ j) a = if a.testBit j then 0 else 2 ^ j := by
  apply Nat.eq_of_testBit_eq
  intro i
  rw [Nat.testBit_ldiff, Nat.testBit_two_pow]
  by_cases h : a.testBit j
  · rw [if_pos h]
    by_cases hji : j = i
    · subst hji; simp [h]
    · simp [hji]
  · rw [if_neg h, Nat.testBit_two_pow]
    by_cases hji : j = i
    · subst hji; simp [h]
    · simp [hji]

theorem land_two_pow_ne_zero (m : Int) (j : Nat) :
    (Int.land m ((2 ^ j : Nat) : Int) != 0) = m.testBit j := by
  have hp : (2 : Nat) ^ j ≠ 0 := by positivity
  cases m with
  | ofNat a =>
    show ((((a &&& 2 ^ j : Nat)) : Int) != 0) = Nat.testBit a j
    rw [nat_and_two_pow]
    by_cases h : a.testBit j <;> simp [h]
  | negSucc a =>
    show ((((Nat.ldiff (2 ^ j) a : Nat)) : Int) != 0) = !(Nat.testBit a j)
    rw [nat_ldiff_two_pow]
    by_cases h : a.testBit j <;> simp [h]

theorem useQuantization_eq_testBit {n : Nat} (self : CBaseArray n) :
    useQuantization self = self._mode.testBit 0 :=
  land_two_pow_ne_zero self._mode 0

theorem usePrediction_eq_testBit {n : Nat} (self : CBaseArray n) :
    usePrediction self = self._mode.testBit 1 :=
  land_two_pow_ne_zero self._mode 1

theorem testBit_xor_two_pow (m : Int) (k i : Nat) (h : k ≠ i) :
    (Int.xor m ((2 ^ k : Nat) : Int)).testBit i = m.testBit i := by
  rw [Int.testBit_lxor]
  have : Int.testBit ((2 ^ k : Nat) : Int) i = false := by
    show Nat.testBit (2 ^ k) i = false
    exact Nat.testBit_two_pow_of_ne h
  rw [this, Bool.xor_false]

/-- C12: the mode is a bit set with Quantization = bit 0 (value 1) and
Prediction = bit 1 (value 2).  For every integer mode `useQuantization()` is
bit 0 of the mode and `usePrediction()` is bit 1; the modes 0, 1, 2, 3 give the
four combinations; two modes with the same bits 0 and 1 give the same
accessors, in particular flipping any bit `k ≥ 2` changes neither. -/
theorem mode_bits {n : Nat} (self : CBaseArray n) :
    CArray.quantization = 1 ∧ CArray.prediction = 2 ∧
    useQuantization self = self._mode.testBit 0 ∧
    usePrediction self = self._mode.testBit 1 ∧
    (useQuantization { self with _mode := 0 } = false ∧
      usePrediction { self with _mode := 0 } = false) ∧
    (useQuantization { self with _mode := 1 } = true ∧
      usePrediction { self with _mode := 1 } = false) ∧
    (useQuantization { self with _mode := 2 } = false ∧
      usePrediction { self with _mode := 2 } = true) ∧
    (useQuantization { self with _mode := 3 } = true ∧
      usePrediction { self with _mode := 3 } = true) ∧
    (∀ other : CBaseArray n, other._mode.testBit 0 = self._mode.testBit 0 →
      other._mode.testBit 1 = self._mode.testBit 1 →
      useQuantization other = useQuantization self ∧
        usePrediction other = usePrediction self) ∧
    ∀ k : Nat, 2 ≤ k →
      useQuantization { self with _mode := Int.xor self._mode ((2 ^ k : Nat) : Int) } =
        useQuantization self ∧
      usePrediction { self with _mode := Int.xor self._mode ((2 ^ k : Nat) : Int) } =
        usePrediction self := by
  refine ⟨by decide, by decide, useQuantization_eq_testBit self, usePrediction_eq_testBit self,
    ⟨rfl, rfl⟩, ⟨rfl, rfl⟩, ⟨rfl, rfl⟩, ⟨rfl, rfl⟩, ?_, ?_⟩
  · intro other h0 h1
    rw [useQuantization_eq_testBit, useQuantization_eq_testBit, usePrediction_eq_testBit,
      usePrediction_eq_testBit]
    exact ⟨h0, h1⟩
  · intro k hk
    rw [useQuantization_eq_testBit, useQuantization_eq_testBit, usePrediction_eq_testBit,
      usePrediction_eq_testBit]
    exact ⟨testBit_xor_two_pow _ k 0 (by omega), testBit_xor_two_pow _ k 1 (by omega)⟩

theorem arrays_defined {n m : Nat} (self : CBaseArray n)
    (f : Vec m → Vec m → Vec m → Vec m) (buffer : List (Vec m))
    (bbl ufr : Vec m) (strips : List (List Nat))
    (hlen : usePrediction self = true → ∀ strip ∈ strips, 3 ≤ strip.length) :
    (∃ out, quantizeArray self f [] buffer bbl ufr strips = some out ∧
      out.length = buffer.length) ∧
    ∃ out, unquantizeArray self f [] buffer bbl ufr strips = some out ∧
      out.length = buffer.length := by
  rw [quantizeArray_eq, unquantizeArray_eq]
  by_cases hc : usePrediction self = true ∧ strips ≠ []
  · rw [if_pos hc, if_pos (hlen hc.1)]
    exact ⟨⟨_, rfl, by simp [emitted_length]⟩, ⟨_, rfl, by simp [emitted_length]⟩⟩
  · rw [if_neg hc]
    exact ⟨⟨_, rfl, by simp⟩, ⟨_, rfl, by simp⟩⟩

/-- C14, as stated, fails: with the array of 4 vertices and the strip
`[0, 1, 7]`, whose third index is out of range, and the Prediction flag set,
`quantizeArray` and `unquantizeArray` do not reject the input: both emit their
4 elements. -/
theorem out_of_range_anchor_not_rejected :
    usePrediction (squareCodec 3 2) = true ∧ squareVertices.length ≤ 7 ∧
    (∃ out, quantizeArray (squareCodec 3 2) sampleQuantize [] squareVertices
        ![0, 0, 0] ![1, 1, 0] [[0, 1, 7]] = some out ∧ out.length = 4) ∧
    ∃ out, unquantizeArray (squareCodec 3 2) sampleUnquantize [] squareVertices
        ![0, 0, 0] ![1, 1, 0] [[0, 1, 7]] = some out ∧ out.length = 4 := by
  exact ⟨by decide, by decide,
    (arrays_defined (squareCodec 3 2) sampleQuantize squareVertices ![0, 0, 0] ![1, 1, 0]
      [[0, 1, 7]] (fun _ => by decide)).1,
    (arrays_defined (squareCodec 3 2) sampleUnquantize squareVertices ![0, 0, 0] ![1, 1, 0]
      [[0, 1, 7]] (fun _ => by decide)).2⟩

/-- C14, amended: an anchor index that is out of range for the array is
silently ignored.  For every array of length N and every strip list (all
strips of length at least 3) in which some index among the first three of a
strip is at least N, with the Prediction flag set, `quantizeArray` and
`unquantizeArray` emit their N elements, raw at the indices below N that are
anchors and quantized (unquantized) at the others. -/
theorem out_of_range_anchor_ignored {n m : Nat} (self : CBaseArray n)
    (f g : Vec m → Vec m → Vec m → Vec m) (buffer : List (Vec m))
    (bbl ufr : Vec m) (strips : List (List Nat)) (hp : usePrediction self = true)
    (hlen : ∀ strip ∈ strips, 3 ≤ strip.length)
    (hbad : ∃ strip ∈ strips, ∃ p j : Nat, p < 3 ∧ strip[p]? = some j ∧ buffer.length ≤ j) :
    (∃ out, quantizeArray self f [] buffer bbl ufr strips = some out ∧
      out.length = buffer.length ∧
      ∀ (k : Nat) (hk : k < buffer.length),
        out[k]? = some (if IsAnchor strips k then buffer[k]
          else f buffer[k] (quantizationPrecision self bbl ufr) bbl)) ∧
    ∃ out, unquantizeArray self g [] buffer bbl ufr strips = some out ∧
      out.length = buffer.length ∧
      ∀ (k : Nat) (hk : k < buffer.length),
        out[k]? = some (if IsAnchor strips k then buffer[k]
          else g buffer[k] (quantizationPrecision self bbl ufr) bbl) := by
  obtain ⟨strip, hmem, -⟩ := hbad
  have hne : strips ≠ [] := List.ne_nil_of_mem hmem
  have key : ∀ (e : Vec m → Vec m → Vec m → Vec m) (k : Nat) (hk : k < buffer.length),
      ([] ++ emitted (fun x => e x (quantizationPrecision self bbl ufr) bbl)
        (anchorFinset strips) buffer 0)[k]? =
      some (if IsAnchor strips k then buffer[k]
        else e buffer[k] (quantizationPrecision self bbl ufr) bbl) := by
    intro e k hk
    rw [List.nil_append, emitted_getElem?, List.getElem?_eq_getElem hk]
    by_cases ha : IsAnchor strips k <;> simp [mem_anchorFinset, ha]
  refine ⟨⟨[] ++ emitted (fun x => f x (quantizationPrecision self bbl ufr) bbl)
      (anchorFinset strips) buffer 0, ?_, by simp [emitted_length], key f⟩,
    ⟨[] ++ emitted (fun x => g x (quantizationPrecision self bbl ufr) bbl)
      (anchorFinset strips) buffer 0, ?_, by simp [emitted_length], key g⟩⟩
  · rw [quantizeArray_eq, if_pos ⟨hp, hne⟩, if_pos hlen]
  · rw [unquantizeArray_eq, if_pos ⟨hp, hne⟩, if_pos hlen]

/-- Witness of C14 (amended): the square and the strip `[0, 1, 7]`. -/
theorem out_of_range_anchor_ignored_witness :
    (∃ out, quantizeArray (squareCodec 3 2) sampleQuantize [] squareVertices
        ![0, 0, 0] ![1, 1, 0] [[0, 1, 7]] = some out ∧
      out.length = squareVertices.length ∧
      ∀ (k : Nat) (hk : k < squareVertices.length),
        out[k]? = some (if IsAnchor [[0, 1, 7]] k then squareVertices[k]
          else sampleQuantize squareVertices[k]
            (quantizationPrecision (squareCodec 3 2) ![0, 0, 0] ![1, 1, 0]) ![0, 0, 0])) ∧
    ∃ out, unquantizeArray (squareCodec 3 2) sampleUnquantize [] squareVertices
        ![0, 0, 0] ![1, 1, 0] [[0, 1, 7]] = some out ∧
      out.length = squareVertices.length ∧
      ∀ (k : Nat) (hk : k < squareVertices.length),
        out[k]? = some (if IsAnchor [[0, 1, 7]] k then squareVertices[k]
          else sampleUnquantize squareVertices[k]
            (quantizationPrecision (squareCodec 3 2) ![0, 0, 0] ![1, 1, 0]) ![0, 0, 0]) :=
  out_of_range_anchor_ignored (squareCodec 3 2) sampleQuantize sampleUnquantize squareVertices
    ![0, 0, 0] ![1, 1, 0] [[0, 1, 7]] (by decide) (by decide)
    ⟨[0, 1, 7], by decide, 2, 7, by decide, by decide, by decide⟩

/-- C15, as stated, fails: with the Prediction flag set and no strip, the
guard `usePrediction() && !strips.empty()` sends `quantizeArray` to its else
branch, which quantizes every element: the square gives 4 elements and no
error. -/
theorem prediction_without_strips_falls_back :
    usePrediction (squareCodec 3 2) = true ∧
    quantizeArray (squareCodec 3 2) sampleQuantize [] squareVertices ![0, 0, 0] ![1, 1, 0] [] =
      some (squareVertices.map (fun x => sampleQuantize x
        (quantizationPrecision (squareCodec 3 2) ![0, 0, 0] ![1, 1, 0]) ![0, 0, 0])) ∧
    (squareVertices.map (fun x => sampleQuantize x
        (quantizationPrecision (squareCodec 3 2) ![0, 0, 0] ![1, 1, 0]) ![0, 0, 0])).length
      = 4 := by
  refine ⟨by decide, ?_, by simp [squareVertices]⟩
  rw [quantizeArray_eq, if_neg (by simp), List.nil_append]

/-- C15, amended: when the Prediction flag is set and the strip list is empty
(or not supplied, the default argument), no error is raised: `quantizeArray`
falls back to quantizing every element of the buffer, and `unquantizeArray` to
unquantizing every element. -/
theorem prediction_without_strips {n m : Nat} (self : CBaseArray n)
    (f g : Vec m → Vec m → Vec m → Vec m) (result buffer : List (Vec m))
    (bbl ufr : Vec m) (hp : usePrediction self = true) :
    quantizeArray self f result buffer bbl ufr [] =
      some (result ++ buffer.map (fun x => f x (quantizationPrecision self bbl ufr) bbl)) ∧
    unquantizeArray self g result buffer bbl ufr [] =
      some (result ++ buffer.map (fun x => g x (quantizationPrecision self bbl ufr) bbl)) := by
  have _ := hp
  rw [quantizeArray_eq, unquantizeArray_eq, if_neg (by simp), if_neg (by simp)]
  exact ⟨rfl, rfl⟩

/-- Witness of C15 (amended): the codec of scenario B without strips. -/
theorem prediction_without_strips_witness :
    quantizeArray (squareCodec 3 2) sampleQuantize [] squareVertices ![0, 0, 0] ![1, 1, 0] [] =
      some ([] ++ squareVertices.map (fun x => sampleQuantize x
        (quantizationPrecision (squareCodec 3 2) ![0, 0, 0] ![1, 1, 0]) ![0, 0, 0])) ∧
    unquantizeArray (squareCodec 3 2) sampleUnquantize [] squareVertices ![0, 0, 0]
        ![1, 1, 0] [] =
      some ([] ++ squareVertices.map (fun x => sampleUnquantize x
        (quantizationPrecision (squareCodec 3 2) ![0, 0, 0] ![1, 1, 0]) ![0, 0, 0])) :=
  prediction_without_strips (squareCodec 3 2) sampleQuantize sampleUnquantize [] squareVertices
    ![0, 0, 0] ![1, 1, 0] (by decide)


/-- C18, degenerate extent: if `bbl == ufr` then, for every width and every
vector `v`, `quantize(v, h, bbl)` is the zero code in every component and
`unquantize(0, h, bbl) == bbl`, `h` being the step of `quantizationPrecision`. -/
theorem degenerate_extent {n m : Nat} (self : CBaseArray n) (bbl ufr v : Vec m)
    (heq : bbl = ufr) :
    quantize v (quantizationPrecision self bbl ufr) bbl = (fun _ => 0) ∧
    unquantize (fun _ => 0) (quantizationPrecision self bbl ufr) bbl = bbl := by
  subst heq
  have h0 : quantizationPrecision self bbl bbl = fun _ => 0 := by
    funext i
    simp [quantizationPrecision, Vec.scale, Vec.sub]
  rw [h0]
  constructor
  · funext i; simp [quantize]
  · funext i; simp [unquantize]

/-- Witness of C18: the extent reduced to the point `(1,2,3)`. -/
theorem degenerate_extent_witness :
    quantize (![5, 6, 7] : Vec 3)
      (quantizationPrecision (squareCodec 1 2) (![1, 2, 3] : Vec 3) ![1, 2, 3]) ![1, 2, 3]
      = (fun _ => 0) ∧
    unquantize (fun _ => 0)
      (quantizationPrecision (squareCodec 1 2) (![1, 2, 3] : Vec 3) ![1, 2, 3]) ![1, 2, 3]
      = ![1, 2, 3] :=
  degenerate_extent (squareCodec 1 2) ![1, 2, 3] ![1, 2, 3] ![5, 6, 7] rfl


/-- C22: quantization error does not compound across elements.  For every
buffer, extent, codec (width, mode) and strip list whose strips have at least
three indices, `unquantizeArray` applied to the output of `quantizeArray` has,
at every index `k`, the element `buffer[k]` itself when `k` is treated as an
anchor (Prediction set, strips not empty, `k` among the first three indices of
a strip) and `unquantize(quantize(buffer[k], h, bbl), h, bbl)` when it is not;
so the value decoded at `k` is the same for two buffers with the same element
at `k`. -/
theorem error_does_not_compound {n m : Nat} (self : CBaseArray n)
    (quantize unquantize : Vec m → Vec m → Vec m → Vec m) (bbl ufr : Vec m)
    (strips : List (List Nat)) (hlen : ∀ strip ∈ strips, 3 ≤ strip.length) :
    ∃ decode : List (Vec m) → List (Vec m),
      (∀ buffer : List (Vec m), ∃ enc,
        quantizeArray self quantize [] buffer bbl ufr strips = some enc ∧
        unquantizeArray self unquantize [] enc bbl ufr strips = some (decode buffer) ∧
        (decode buffer).length = buffer.length ∧
        ∀ k : Nat, (decode buffer)[k]? = (buffer[k]?).map (fun x =>
          if usePrediction self = true ∧ strips ≠ [] ∧ IsAnchor strips k then x
          else unquantize (quantize x (quantizationPrecision self bbl ufr) bbl)
            (quantizationPrecision self bbl ufr) bbl)) ∧
      ∀ (buffer1 buffer2 : List (Vec m)) (k : Nat), buffer1[k]? = buffer2[k]? →
        (decode buffer1)[k]? = (decode buffer2)[k]? := by
  by_cases hc : usePrediction self = true ∧ strips ≠ []
  · have key : ∀ (buffer : List (Vec m)) (k : Nat),
        ([] ++ emitted (fun x => unquantize x (quantizationPrecision self bbl ufr) bbl)
          (anchorFinset strips) ([] ++ emitted (fun x => quantize x
            (quantizationPrecision self bbl ufr) bbl) (anchorFinset strips) buffer 0) 0)[k]?
        = (buffer[k]?).map (fun x =>
          if usePrediction self = true ∧ strips ≠ [] ∧ IsAnchor strips k then x
          else unquantize (quantize x (quantizationPrecision self bbl ufr) bbl)
            (quantizationPrecision self bbl ufr) bbl) := by
      intro buffer k
      simp only [List.nil_append, emitted_getElem?, Nat.zero_add, Option.map_map,
        mem_anchorFinset]
      cases buffer[k]? with
      | none => rfl
      | some x =>
        by_cases ha : IsAnchor strips k
        · simp [ha, hc.1, hc.2]
        · simp [ha]
    refine ⟨fun buffer => [] ++ emitted (fun x => unquantize x
        (quantizationPrecision self bbl ufr) bbl) (anchorFinset strips)
        ([] ++ emitted (fun x => quantize x (quantizationPrecision self bbl ufr) bbl)
          (anchorFinset strips) buffer 0) 0, fun buffer => ⟨[] ++ emitted (fun x => quantize x
        (quantizationPrecision self bbl ufr) bbl) (anchorFinset strips) buffer 0,
        ?_, ?_, by simp [emitted_length], key buffer⟩, fun b1 b2 k h => ?_⟩
    · rw [quantizeArray_eq, if_pos hc, if_pos hlen]
    · rw [unquantizeArray_eq, if_pos hc, if_pos hlen]
    · rw [key b1 k, key b2 k, h]
  · have key : ∀ (buffer : List (Vec m)) (k : Nat),
        ([] ++ ([] ++ buffer.map (fun x => quantize x
          (quantizationPrecision self bbl ufr) bbl)).map (fun x => unquantize x
            (quantizationPrecision self bbl ufr) bbl))[k]?
        = (buffer[k]?).map (fun x =>
          if usePrediction self = true ∧ strips ≠ [] ∧ IsAnchor strips k then x
          else unquantize (quantize x (quantizationPrecision self bbl ufr) bbl)
            (quantizationPrecision self bbl ufr) bbl) := by
      intro buffer k
      have hn : ¬ (usePrediction self = true ∧ strips ≠ [] ∧ IsAnchor strips k) :=
        fun h => hc ⟨h.1, h.2.1⟩
      simp only [List.nil_append, List.getElem?_map, Option.map_map, if_neg hn]
      rfl
    refine ⟨fun buffer => [] ++ ([] ++ buffer.map (fun x => quantize x
        (quantizationPrecision self bbl ufr) bbl)).map (fun x => unquantize x
          (quantizationPrecision self bbl ufr) bbl), fun buffer => ⟨[] ++ buffer.map
        (fun x => quantize x (quantizationPrecision self bbl ufr) bbl),
        ?_, ?_, by simp, key buffer⟩, fun b1 b2 k h => ?_⟩
    · rw [quantizeArray_eq, if_neg hc]
    · rw [unquantizeArray_eq, if_neg hc]
    · rw [key b1 k, key b2 k, h]

/-- Witness of C22: the codec of scenario B with the strip `[0,1,2,3]`. -/
theorem error_does_not_compound_witness :
    ∃ decode : List (Vec 3) → List (Vec 3),
      (∀ buffer : List (Vec 3), ∃ enc,
        quantizeArray (squareCodec 3 2) quantize [] buffer ![0, 0, 0] ![1, 1, 0]
          [[0, 1, 2, 3]] = some enc ∧
        unquantizeArray (squareCodec 3 2) unquantize [] enc ![0, 0, 0] ![1, 1, 0]
          [[0, 1, 2, 3]] = some (decode buffer) ∧
        (decode buffer).length = buffer.length ∧
        ∀ k : Nat, (decode buffer)[k]? = (buffer[k]?).map (fun x =>
          if usePrediction (squareCodec 3 2) = true ∧ [[0, 1, 2, 3]] ≠ [] ∧
              IsAnchor [[0, 1, 2, 3]] k then x
          else unquantize (quantize x
              (quantizationPrecision (squareCodec 3 2) ![0, 0, 0] ![1, 1, 0]) ![0, 0, 0])
            (quantizationPrecision (squareCodec 3 2) ![0, 0, 0] ![1, 1, 0]) ![0, 0, 0])) ∧
      ∀ (buffer1 buffer2 : List (Vec 3)) (k : Nat), buffer1[k]? = buffer2[k]? →
        (decode buffer1)[k]? = (decode buffer2)[k]? :=
  error_does_not_compound (squareCodec 3 2) quantize unquantize ![0, 0, 0] ![1, 1, 0]
    [[0, 1, 2, 3]] (by decide)

theorem precision_eq_div {n m : Nat} (self : CBaseArray n) (bbl ufr : Vec m)
    (h1 : 1 ≤ self._bytes) (h4 : self._bytes ≤ 4) (i : Fin m) :
    quantizationPrecision self bbl ufr i =
      (ufr i - bbl i) * (1 / (((2 : Int) ^ (8 * self._bytes.toNat - 1) - 1 : Int) : ℚ)) := by
  have hd := wrap32_denominator self._bytes h1 h4
  simp only [quantizationPrecision, Vec.scale, Vec.sub, hd]

end Qtz

namespace ReaderWriterMeta

theorem extractions_eq (s : List Char) : ∀ cur : List Char,
    extractions cur s =
      ((s.splitOnP isspace).modifyHead (cur ++ ·)).filter (fun t => !t.isEmpty) := by
  induction s with
  | nil =>
    intro cur
    cases cur <;> simp [extractions]
  | cons c rest ih =>
    intro cur
    by_cases hc : isspace c = true
    · have h0 : ∀ l : List (List Char), l.modifyHead (fun x => [] ++ x) = l := by
        intro l; cases l <;> simp
      have hrest := ih []
      rw [h0] at hrest
      cases cur with
      | nil => simp [extractions, hc, hrest]
      | cons a t => simp [extractions, hc, hrest]
    · have hc2 : isspace c = false := by simpa using hc
      simp only [extractions, hc2, Bool.false_eq_true, if_false, List.splitOnP_cons, ih,
        List.modifyHead_modifyHead]
      congr 2
      funext x
      simp

theorem extractions_eq_tokens (s : List Char) : extractions [] s = tokens s := by
  rw [extractions_eq, tokens]
  congr 1
  cases s.splitOnP isspace <;> simp

theorem find_equals_split (opt : List Char) :
    (match find_equals opt with
      | some found => (opt.take found, opt.drop (found + 1))
      | none => (opt, [])) = (key opt, value opt) := by
  induction opt with
  | nil => simp [find_equals, key, value]
  | cons c rest ih =>
    by_cases hc : c = '='
    · simp [find_equals, key, value, hc]
    · simp only [find_equals, if_neg hc]
      cases hf : find_equals rest with
      | none =>
        rw [hf] at ih
        simp only [Prod.mk.injEq] at ih
        simp only [Option.map_none', Prod.mk.injEq]
        simp only [key, value] at ih ⊢
        simp [hc, ← ih.1, ← ih.2]
      | some found =>
        rw [hf] at ih
        simp only [Prod.mk.injEq] at ih
        simp only [Option.map_some', Prod.mk.injEq]
        simp only [key, value] at ih ⊢
        simp [hc, ← ih.1, ← ih.2]

theorem parseOptions_step_eq (o : OptionsStruct) (opt : List Char) :
    parseOptions_step o opt =
      if key opt = "useRelativePath".toList then { o with useRelativePath := true }
      else if key opt = "output".toList then { o with output := value opt }
      else o := by
  unfold parseOptions_step
  rw [find_equals_split]

theorem foldl_step_output (toks : List (List Char)) : ∀ o : OptionsStruct,
    (toks.foldl parseOptions_step o).output =
      match (toks.filter (fun t => key t = "output".toList)).getLast? with
      | some t => value t
      | none => o.output := by
  induction toks using List.reverseRecOn with
  | nil => intro o; simp
  | append_singleton init t ih =>
    intro o
    rw [List.foldl_append, List.foldl_cons, List.foldl_nil, parseOptions_step_eq,
      List.filter_append]
    by_cases hk : key t = "output".toList
    · have hne : ¬ key t = "useRelativePath".toList := by rw [hk]; decide
      have hf : List.filter (fun t => decide (key t = "output".toList)) [t] = [t] := by
        simp only [List.filter, hk, decide_True]
      rw [if_neg hne, if_pos hk, hf, List.getLast?_concat]
    · have hf : List.filter (fun t => decide (key t = "output".toList)) [t] = [] := by
        simp only [List.filter, hk, decide_False]
      rw [if_neg hk, hf, List.append_nil]
      by_cases hu : key t = "useRelativePath".toList
      · rw [if_pos hu]
        exact ih o
      · rw [if_neg hu]
        exact ih o

/-- C20: `parseOptions` sets the output path from the option string.  For
every option string the returned `output` is the text after the first `=` of
the last whitespace-separated token whose text before the first `=` is exactly
`output`, and `meta.json` when there is no such token; it is `meta.json` for
the null options pointer; a bare `output` token gives the empty string; and a
token with any other key leaves `output` as it was. -/
theorem parseOptions_output (s : List Char) :
    (parseOptions (some s)).output = requestedOutput s ∧
    (parseOptions none).output = "meta.json".toList ∧
    (key "output".toList = "output".toList ∧ value "output".toList = []) ∧
    ∀ (o : OptionsStruct) (t : List Char), key t ≠ "output".toList →
      (parseOptions_step o t).output = o.output := by
  refine ⟨?_, rfl, ⟨by decide, by decide⟩, fun o t hk => ?_⟩
  · simp only [parseOptions, requestedOutput]
    rw [foldl_step_output, extractions_eq_tokens]
    rfl
  · rw [parseOptions_step_eq, if_neg hk]
    by_cases hu : key t = "useRelativePath".toList
    · rw [if_pos hu]
    · rw [if_neg hu]

/-- Instances of C20: the last `output` token wins, other tokens do not
count, and a bare `output` gives the empty path. -/
theorem parseOptions_output_witness :
    (parseOptions (some "useRelativePath output=a.json  other=1 output=b=c".toList)).output
      = "b=c".toList ∧
    (parseOptions (some "useRelativePath Output=a.json".toList)).output = "meta.json".toList ∧
    (parseOptions (some "output=a.json output".toList)).output = [] ∧
    requestedOutput "useRelativePath output=a.json  other=1 output=b=c".toList
      = "b=c".toList := by
  refine ⟨by decide, by decide, by decide, ?_⟩
  rw [← (parseOptions_output _).1]
  decide

end ReaderWriterMeta

namespace ReaderWriterMeta

theorem foldl_step_useRelativePath (toks : List (List Char)) : ∀ o : OptionsStruct,
    (toks.foldl parseOptions_step o).useRelativePath =
      (o.useRelativePath || toks.any (fun t => decide (key t = "useRelativePath".toList))) := by
  induction toks with
  | nil => intro o; simp
  | cons t rest ih =>
    intro o
    rw [List.foldl_cons, ih, parseOptions_step_eq, List.any_cons]
    by_cases hu : key t = "useRelativePath".toList
    · rw [if_pos hu, decide_eq_true hu]
      simp
    · rw [if_neg hu, decide_eq_false hu]
      by_cases hk : key t = "output".toList
      · rw [if_pos hk]
        simp
      · rw [if_neg hk]
        simp

/-- C21: `parseOptions` returns `useRelativePath = true` exactly when the
option string has a whitespace-separated token whose text before the first `=`
is exactly `useRelativePath`; it is `false` for the null options pointer and
for the empty option string; the text after `=` is ignored, and the
comparison is case-sensitive. -/
theorem parseOptions_useRelativePath (s : List Char) :
    ((parseOptions (some s)).useRelativePath = true ↔
      ∃ t ∈ tokens s, key t = "useRelativePath".toList) ∧
    (parseOptions none).useRelativePath = false ∧
    (parseOptions (some [])).useRelativePath = false ∧
    (∀ (o : OptionsStruct) (t : List Char), key t = "useRelativePath".toList →
      (parseOptions_step o t).useRelativePath = true) ∧
    (parseOptions (some "useRelativePath=false".toList)).useRelativePath = true ∧
    (parseOptions (some "userelativepath".toList)).useRelativePath = false := by
  refine ⟨?_, rfl, by decide, fun o t hk => ?_, by decide, by decide⟩
  · simp only [parseOptions]
    rw [foldl_step_useRelativePath, extractions_eq_tokens]
    simp [OptionsStruct.new]
  · rw [parseOptions_step_eq, if_pos hk]

/-- Instances of C21: the flag among other tokens, and an option string
without it. -/
theorem parseOptions_useRelativePath_witness :
    (parseOptions (some "output=a.json  useRelativePath=0".toList)).useRelativePath = true ∧
    (∃ t ∈ tokens "output=a.json  useRelativePath=0".toList,
      key t = "useRelativePath".toList) ∧
    (parseOptions (some "output=useRelativePath".toList)).useRelativePath = false := by
  refine ⟨by decide, ?_, by decide⟩
  exact (parseOptions_useRelativePath _).1.1 (by decide)

end ReaderWriterMeta

namespace ReaderWriterMeta

/-- C23: `readNode` returns `FILE_NOT_HANDLED`, with no traversal of a node
and no write of the metadata file, whenever the lower-cased extension of
`fileName` is not accepted, or the name without that extension is empty, or
the sub-file of that name cannot be loaded. -/
theorem readNode_not_handled {Node : Type} (lib : Library Node) (fuel : Nat)
    (fileName : List Char) (options : Option (List Char))
    (h : lib.acceptsExtension (lib.getLowerCaseFileExtension fileName) = false ∨
      lib.getNameLessExtension fileName = [] ∨
      lib.readNodeFile (lib.getNameLessExtension fileName) options = none) :
    readNode lib fuel fileName options = some (ReadResult.FILE_NOT_HANDLED, []) := by
  unfold readNode
  by_cases h1 : lib.acceptsExtension (lib.getLowerCaseFileExtension fileName) = true
  · by_cases h2 : lib.getNameLessExtension fileName = []
    · simp [h1, h2]
    · rcases h with h | h | h
      · rw [h1] at h; cases h
      · exact absurd h h2
      · simp [h1, h2, h]
  · simp [h1]

/-- Witness of C23: `model.osg` has an extension that is not accepted, and
`.meta` has an empty name once the extension is stripped. -/
theorem readNode_not_handled_witness :
    readNode sampleLibrary 0 "model.osg".toList none
      = some (ReadResult.FILE_NOT_HANDLED, []) ∧
    readNode sampleLibrary 5 ".meta".toList (some "output=a.json".toList)
      = some (ReadResult.FILE_NOT_HANDLED, []) ∧
    readNode sampleLibrary 5 "model.osg.meta".toList none
      = some (ReadResult.FILE_NOT_HANDLED, []) :=
  ⟨readNode_not_handled sampleLibrary 0 "model.osg".toList none (Or.inl (by decide)),
    readNode_not_handled sampleLibrary 5 ".meta".toList (some "output=a.json".toList)
      (Or.inr (Or.inl (by decide))),
    readNode_not_handled sampleLibrary 5 "model.osg.meta".toList none (Or.inr (Or.inr rfl))⟩

end ReaderWriterMeta

namespace MetaDataExtractor

theorem wrap32_add_left (x y : Int) : Qtz.wrap32 (Qtz.wrap32 x + y) = Qtz.wrap32 (x + y) := by
  unfold Qtz.wrap32
  omega

theorem calls_fields (concatPaths : List Char → List Char → List Char) (k : Nat) :
    ∀ self : MetaDataExtractor,
      calls concatPaths k self =
        { self with _orphanTextureId :=
            if k = 0 then self._orphanTextureId
            else Qtz.wrap32 (self._orphanTextureId + k) } := by
  induction k with
  | zero => intro self; rfl
  | succ k ih =>
    intro self
    rw [calls, ih]
    simp only [createTextureFileName]
    by_cases hk : k = 0
    · subst hk; simp
    · simp only [hk, if_false, Nat.succ_ne_zero, wrap32_add_left]
      congr 2
      push_cast
      ring

theorem calls_new_counter (concatPaths : List Char → List Char → List Char)
    (dir : List Char) (rel : Bool) (k : Nat) :
    (calls concatPaths k (new dir rel))._orphanTextureId = Qtz.wrap32 k ∧
    (calls concatPaths k (new dir rel))._modelDir = dir := by
  rw [calls_fields]
  by_cases hk : k = 0
  · subst hk
    simp [new, Qtz.wrap32]
  · simp [hk, new]

theorem wrap32_small (k : Nat) (hk : k < 2 ^ 31) : Qtz.wrap32 k = k := by
  unfold Qtz.wrap32
  have : (k : Int) < 2 ^ 31 := by exact_mod_cast hk
  omega

theorem digitChar_toNat (d : Nat) (hd : d < 10) : (digitChar d).toNat = 48 + d := by
  interval_cases d <;> rfl

theorem map_digitChar_injective : ∀ l1 l2 : List Nat, (∀ d ∈ l1, d < 10) → (∀ d ∈ l2, d < 10) →
    l1.map digitChar = l2.map digitChar → l1 = l2 := by
  intro l1
  induction l1 with
  | nil => intro l2 _ _ h; cases l2 <;> simp_all
  | cons a t ih =>
    intro l2 h1 h2 h
    cases l2 with
    | nil => simp at h
    | cons b u =>
      simp only [List.map_cons, List.cons.injEq] at h
      have ha := digitChar_toNat a (h1 a (by simp))
      have hb := digitChar_toNat b (h2 b (by simp))
      have hab : a = b := by rw [h.1] at ha; omega
      rw [hab, ih u (fun d hd => h1 d (by simp [hd])) (fun d hd => h2 d (by simp [hd])) h.2]

theorem decimalDigits_injective (a b : Nat) (h : decimalDigits a = decimalDigits b) : a = b := by
  have hlt : ∀ n : Nat, ∀ d ∈ (Nat.digits 10 n).reverse, d < 10 := by
    intro n d hd
    exact Nat.digits_lt_base (by norm_num) (List.mem_reverse.1 hd)
  have hzero : ∀ n : Nat, n ≠ 0 → ['0'] ≠ (Nat.digits 10 n).reverse.map digitChar := by
    intro n hn h0
    have h1 : [0].map digitChar = (Nat.digits 10 n).reverse.map digitChar := h0
    have h2 := map_digitChar_injective [0] _ (by simp) (hlt n) h1
    have h3 : Nat.digits 10 n = [0] := by
      have := congrArg List.reverse h2
      simpa using this.symm
    have h4 := Nat.getLast_digit_ne_zero 10 hn
    simp [h3] at h4
  unfold decimalDigits at h
  by_cases ha : a = 0
  · by_cases hb : b = 0
    · rw [ha, hb]
    · rw [if_pos ha, if_neg hb] at h
      exact absurd h (hzero b hb)
  · by_cases hb : b = 0
    · rw [if_neg ha, if_pos hb] at h
      exact absurd h.symm (hzero a ha)
    · rw [if_neg ha, if_neg hb] at h
      have h2 := map_digitChar_injective _ _ (hlt a) (hlt b) h
      exact Nat.digits.injective 10 (List.reverse_injective h2)

theorem showInt_natCast (k : Nat) : showInt (k : Int) = decimalDigits k := by
  simp [showInt]

theorem decimalDigits_twelve : decimalDigits 12 = "12".toList := by
  simp [decimalDigits, digitChar]

/-- C26, as stated, fails: the counter is an `int`.  After 2^31 calls it is
`-2147483648`, not the number of calls made so far, and the call number 2^32
returns the name that the call number 0 returned. -/
theorem createTextureFileName_repeats :
    (calls sampleConcatPaths (2 ^ 31) (new "models".toList false))._orphanTextureId
      = -2147483648 ∧
    (calls sampleConcatPaths (2 ^ 31) (new "models".toList false))._orphanTextureId
      ≠ ((2 ^ 31 : Nat) : Int) ∧
    (0 : Nat) ≠ 2 ^ 32 ∧
    nthName sampleConcatPaths (2 ^ 32) (new "models".toList false)
      = nthName sampleConcatPaths 0 (new "models".toList false) := by
  have h31 := (calls_new_counter sampleConcatPaths "models".toList false (2 ^ 31)).1
  have hw : Qtz.wrap32 ((2 ^ 31 : Nat) : Int) = -2147483648 := by decide
  rw [hw] at h31
  refine ⟨h31, by rw [h31]; decide, by decide, ?_⟩
  have h32 : calls sampleConcatPaths (2 ^ 32) (new "models".toList false)
      = calls sampleConcatPaths 0 (new "models".toList false) := by
    rw [calls_fields, calls_fields]
    have hw32 : Qtz.wrap32 ((new "models".toList false)._orphanTextureId + ((2 ^ 32 : Nat) : Int))
        = (new "models".toList false)._orphanTextureId := by decide
    rw [if_neg (by decide), if_pos rfl, hw32]
  rw [nthName, nthName, h32]

/-- C26, amended: while the `int` counter does not overflow,
`createTextureFileName` never repeats a name on one extractor.  For
`n < 2^31` the n-th call (`n = 0, 1, 2, ...`) returns the model directory
joined with `skfb_texture_extract_<n>.jpg`, the counter before it equals the
number `n` of calls made so far, the call increments the counter by exactly
one when `n + 1 < 2^31`, and two distinct calls below 2^31 return distinct
file names (as far as `concatPaths` keeps distinct names distinct). -/
theorem createTextureFileName_distinct (concatPaths : List Char → List Char → List Char)
    (dir : List Char) (rel : Bool) (n : Nat) (hn : n < 2 ^ 31) :
    nthName concatPaths n (new dir rel) =
      concatPaths dir ("skfb_texture_extract_".toList ++ decimalDigits n ++ ".jpg".toList) ∧
    (calls concatPaths n (new dir rel))._orphanTextureId = n ∧
    (n + 1 < 2 ^ 31 →
      (calls concatPaths (n + 1) (new dir rel))._orphanTextureId =
        (calls concatPaths n (new dir rel))._orphanTextureId + 1) ∧
    ∀ k : Nat, k < 2 ^ 31 → k ≠ n →
      (∀ a b : List Char, concatPaths dir a = concatPaths dir b → a = b) →
      nthName concatPaths k (new dir rel) ≠ nthName concatPaths n (new dir rel) := by
  have hname : ∀ j : Nat, j < 2 ^ 31 → nthName concatPaths j (new dir rel) =
      concatPaths dir
        ("skfb_texture_extract_".toList ++ decimalDigits j ++ ".jpg".toList) := by
    intro j hj
    obtain ⟨hid, hdir⟩ := calls_new_counter concatPaths dir rel j
    rw [wrap32_small j hj] at hid
    simp only [nthName, createTextureFileName, hid, hdir, showInt_natCast]
  have hcount : ∀ j : Nat, j < 2 ^ 31 →
      (calls concatPaths j (new dir rel))._orphanTextureId = j := by
    intro j hj
    rw [(calls_new_counter concatPaths dir rel j).1, wrap32_small j hj]
  refine ⟨hname n hn, hcount n hn, fun h1 => ?_, fun k hk hkn hinj h => ?_⟩
  · rw [hcount n hn, hcount (n + 1) h1]
    push_cast
    rfl
  · rw [hname k hk, hname n hn] at h
    have h2 := hinj _ _ h
    rw [List.append_left_inj, List.append_right_inj] at h2
    exact hkn (decimalDigits_injective k n h2)

/-- Witness of C26 (amended): the call number 12 on an extractor for the
directory `models` returns `models/skfb_texture_extract_12.jpg`, and 12 calls
were made before it. -/
theorem createTextureFileName_distinct_witness :
    nthName sampleConcatPaths 12 (new "models".toList false)
      = "models/skfb_texture_extract_12.jpg".toList ∧
    (calls sampleConcatPaths 12 (new "models".toList false))._orphanTextureId = 12 := by
  have h := createTextureFileName_distinct sampleConcatPaths "models".toList false 12
    (by decide)
  refine ⟨?_, h.2.1⟩
  rw [h.1, decimalDigits_twelve]
  decide

end MetaDataExtractor
